import Mathlib

/-!
Shallow embedding of `src/index.mjs` (directory-batch image converter).

The JavaScript program is a thin orchestration layer over the external
`sharp` codec.  We embed:

* the option parser `parseArgs` (JS `Number`, `split`, `trim`,
  `toLowerCase` semantics are modelled by executable char-list functions);
* file discovery `listImageFiles` over directory entries;
* the per-image converter `processImage` (resize decision, per-format
  fan-out, skip/overwrite/dry-run policy over an explicit file-system
  state, threaded as an association list from output paths to the encoded
  content that was written there);
* the orchestrator loop of `main` with its per-file try/catch.

The external codec is represented by its observable effect on the model:
opening/decoding a file yields either an error or a `Meta` record (an
input of the model), and encoding is recorded as the pair of the working
`Handle` and the `EncodeOp` applied to its clone.

The converter and loop come in two layers.  `processOutputs`/`runFilesE`
model the failure-free fragment, where only the open/decode/metadata step
can fail.  `processOutputsF`/`runFilesF` additionally inject failures at
every fallible codec step of the source — the `resize()` call and the
per-output encode/write step (`fn(work.clone())` option validation and
`toFile` rejection) — so that mid-fan-out throws, which discard the
file's partial results while leaving its earlier writes on disk, are
representable.  The second layer agrees with the first when no such
failure is injected (`runFilesF_lift`).
-/

namespace ImageResizer

/-! ## String and path primitives (models of JS string ops and node:path) -/

/-- Model of JS `String.prototype.split` with a one-character separator
(the program only ever splits on `"="`, `","` and we reuse it for `"/"`
and `"."`). `split` always returns at least one (possibly empty) piece. -/
def splitOnChar (sep : Char) : List Char → List (List Char)
  | [] => [[]]
  | a :: rest =>
    let r := splitOnChar sep rest
    if a = sep then [] :: r
    else (a :: r.headD []) :: r.tail

/-- JS whitespace characters relevant to `String.prototype.trim` (ASCII part;
the program's CLI arguments contain no exotic unicode spaces). -/
def jsWhitespace (c : Char) : Bool :=
  c == ' ' || c == '\t' || c == '\n' || c == '\r' || c == '\x0b' || c == '\x0c'

/-- Model of JS `String.prototype.trim` on the character list. -/
def trimList (cs : List Char) : List Char :=
  ((cs.dropWhile jsWhitespace).reverse.dropWhile jsWhitespace).reverse

/-- ASCII branch of JS `String.prototype.toLowerCase` (format tokens and
extensions in this program are ASCII). -/
def lowerChar (c : Char) : Char :=
  if 'A' ≤ c ∧ c ≤ 'Z' then Char.ofNat (c.toNat + 32) else c

def lowerStr (s : String) : String :=
  String.mk (s.toList.map lowerChar)

/-- Model of JS `String.prototype.startsWith`. -/
def startsWithList : List Char → List Char → Bool
  | [], _ => true
  | _ :: _, [] => false
  | p :: ps, c :: cs => p == c && startsWithList ps cs

def jsStartsWith (s pre : String) : Bool :=
  startsWithList pre.toList s.toList

/-- Numeric value of a digit string (the caller checks all chars are digits). -/
def digitsVal (cs : List Char) : Nat :=
  cs.foldl (fun n c => n * 10 + (c.toNat - 48)) 0

def allDigits (cs : List Char) : Bool :=
  cs.all fun c => '0' ≤ c && c ≤ '9'

/-- Unsigned decimal literal: digits with an optional fractional part
(`"5"`, `"5."`, `".5"`, `"5.25"`). Anything else is NaN (`none`). -/
def parseUnsigned (cs : List Char) : Option Rat :=
  match splitOnChar '.' cs with
  | [a] =>
    if !a.isEmpty && allDigits a then some ((digitsVal a : Nat) : Rat) else none
  | [a, b] =>
    if (!a.isEmpty || !b.isEmpty) && allDigits a && allDigits b then
      some (((digitsVal (a ++ b) : Nat) : Rat) / ((10 : Rat) ^ b.length))
    else none
  | _ => none

/-- Model of JS `Number(string)` on the argument forms this program can
receive: surrounding whitespace is trimmed, the empty (or all-whitespace)
string converts to `0`, an optional sign precedes a decimal literal, and
any other string is NaN, modelled as `none`.  (Hexadecimal, exponent and
`Infinity` literals are outside the model.) -/
def jsNumber (s : String) : Option Rat :=
  let t := trimList s.toList
  if t.isEmpty then some 0
  else
    match t with
    | '-' :: rest => (parseUnsigned rest).map fun x => -x
    | '+' :: rest => parseUnsigned rest
    | _ => parseUnsigned t

/-- Model of `path.join(dir, name)` for a directory path with no trailing
slash, the only use in the program. -/
def pathJoin (dir name : String) : String := dir ++ "/" ++ name

/-- Model of `path.basename(p)`: the part after the last `/`.  (node also
strips trailing slashes; the program never builds a path ending in `/`.) -/
def jsBasename (p : String) : String :=
  String.mk ((splitOnChar '/' p.toList).getLastD [])

/-- Extension of a basename, as `path.extname` computes it: from the last
`.` to the end, empty when there is no `.` or when the only relevant `.`
is the first character. -/
def extnameList (cs : List Char) : List Char :=
  let r := cs.reverse
  let afterDotRev := r.takeWhile fun c => c != '.'
  match r.dropWhile (fun c => c != '.') with
  | [] => []
  | _ :: stemRev => if stemRev.isEmpty then [] else '.' :: afterDotRev.reverse

/-- Model of `path.extname(p)`. -/
def jsExtname (p : String) : String :=
  String.mk (extnameList (jsBasename p).toList)

/-- Model of `path.basename(p, path.extname(p))` as the program uses it:
the basename with its extension suffix removed. -/
def basenameNoExt (p : String) : String :=
  let b := (jsBasename p).toList
  String.mk (b.take (b.length - (extnameList b).length))

/-! ## Option Resolver (`parseArgs`) -/

/-- Resolved configuration (`opts` object in `parseArgs`).  `maxWidth` and
`quality` are JS numbers, modelled as rationals. -/
structure Opts where
  maxWidth : Rat
  quality : Rat
  formats : List String
  dryRun : Bool
  overwrite : Bool
deriving DecidableEq, Repr

/-- The defaults `parseArgs` starts from. -/
def defaultOpts : Opts :=
  { maxWidth := 1600, quality := 80, formats := ["webp", "jpeg"],
    dryRun := false, overwrite := false }

/-- Model of `arg.split("=")[1]`, with JS `undefined` read back as the
empty string where the program treats it as falsy. -/
def argValue (arg : String) : String :=
  String.mk ((splitOnChar '=' arg.toList).getD 1 [])

/-- Model of `Number(v) || current`: the parsed number unless it is falsy
(NaN, `0` or `-0`), in which case the current value is kept. -/
def orDefault (v : Option Rat) (d : Rat) : Rat :=
  match v with
  | none => d
  | some x => if x = 0 then d else x

def applyMaxWidth (o : Opts) (v : String) : Opts :=
  { o with maxWidth := orDefault (jsNumber v) o.maxWidth }

def applyQuality (o : Opts) (v : String) : Opts :=
  { o with quality := orDefault (jsNumber v) o.quality }

/-- Model of `v.split(",").map(s => s.trim().toLowerCase()).filter(Boolean)`. -/
def formatsOf (v : String) : List String :=
  ((splitOnChar ',' v.toList).map fun cs =>
    String.mk ((trimList cs).map lowerChar)).filter fun s => !s.data.isEmpty

/-- Model of the `--formats=` branch: the assignment is guarded by the
truthiness of the raw value `v` (`if (v) ...`), not by the emptiness of
the resulting token list. -/
def applyFormats (o : Opts) (v : String) : Opts :=
  if v.data.isEmpty then o else { o with formats := formatsOf v }

/-- One iteration of the argument loop in `parseArgs`. -/
def parseOne (o : Opts) (arg : String) : Opts :=
  if arg = "--dry-run" then { o with dryRun := true }
  else if arg = "--overwrite" then { o with overwrite := true }
  else if jsStartsWith arg "--max-width=" then applyMaxWidth o (argValue arg)
  else if jsStartsWith arg "--quality=" then applyQuality o (argValue arg)
  else if jsStartsWith arg "--formats=" then applyFormats o (argValue arg)
  else o

/-- Model of `parseArgs(argv)`: fold the recognizers over `argv.slice(2)`
starting from the defaults. -/
def parseArgs (argv : List String) : Opts :=
  (argv.drop 2).foldl parseOne defaultOpts

/-! ## File Discovery (`listImageFiles`) -/

/-- Modelled: the absolute images directory (`path.resolve(__dirname,
"images")`); its concrete value depends on the install location and does
not affect any claim. -/
def IMAGES_DIR : String := "/app/images"

def OUTPUT_SUBDIR : String := "formatted"

def OUTPUT_DIR : String := pathJoin IMAGES_DIR OUTPUT_SUBDIR

def SUPPORTED_EXTS : List String :=
  [".jpg", ".jpeg", ".png", ".webp", ".tif", ".tiff", ".gif"]

/-- Model of `isImageFile(name)`. -/
def isImageFile (name : String) : Bool :=
  decide (lowerStr (jsExtname name) ∈ SUPPORTED_EXTS)

/-- Kind of a directory entry (`fs.Dirent`): directory, regular file, or
anything else (symlink, socket, ...), for which both `isDirectory()` and
`isFile()` are false. -/
inductive EntryKind
  | dir
  | file
  | other
deriving DecidableEq, Repr

structure Dirent where
  name : String
  kind : EntryKind
deriving DecidableEq, Repr

/-- Model of `listImageFiles(dir)` over the entries `fs.readdir` returned.
Directory entries are skipped (the `OUTPUT_SUBDIR` check and the general
skip both `continue`); only file entries with a supported extension are
collected, in directory order, without recursion. -/
def listImageFiles (dir : String) (entries : List Dirent) : List String :=
  entries.filterMap fun e =>
    if e.kind = EntryKind.dir then none
    else if e.kind = EntryKind.file ∧ isImageFile e.name then
      some (pathJoin dir e.name)
    else none

/-! ## Per-Image Converter (`processImage`) -/

/-- Metadata the codec reports for a decodable image.  `width` is `some w`
when `meta.width` is a JS number and `none` when it is `undefined`. -/
structure Meta where
  width : Option Int
deriving DecidableEq, Repr

/-- Model of the resize decision
`typeof meta.width === "number" && meta.width > opts.maxWidth`. -/
def shouldResize (meta : Meta) (maxWidth : Rat) : Bool :=
  match meta.width with
  | some w => decide ((w : Rat) > maxWidth)
  | none => false

/-- The options object passed to `sharp`'s `resize`. -/
structure ResizeOp where
  width : Rat
  withoutEnlargement : Bool
  fit : String
deriving DecidableEq, Repr

/-- The working pipeline handle: the opened source (lenient decode), the
orientation normalization from `.rotate()`, and the optional resize. -/
structure Handle where
  src : String
  rotated : Bool
  resized : Option ResizeOp
deriving DecidableEq, Repr

/-- Model of building the working handle `work` in `processImage`. -/
def mkWork (srcPath : String) (meta : Meta) (opts : Opts) : Handle :=
  let pipeline : Handle := { src := srcPath, rotated := true, resized := none }
  if shouldResize meta opts.maxWidth then
    { pipeline with
        resized := some { width := opts.maxWidth, withoutEnlargement := true,
                          fit := "inside" } }
  else pipeline

/-- The format-specific encode applied to a cloned handle. -/
inductive EncodeOp
  | webp (quality : Rat) (effort : Nat)
  | jpeg (quality : Rat) (mozjpeg : Bool)
  | png (quality : Rat)
deriving DecidableEq, Repr

/-- One entry of the `outputs` array in `processImage`. -/
structure OutputSpec where
  fmt : String
  outFile : String
  fn : EncodeOp
deriving DecidableEq, Repr

def warnLine (fmt : String) : String :=
  "Skipping unsupported output format: " ++ fmt

/-- Output path for a base name and output extension:
`path.join(OUTPUT_DIR, nameNoExt + "." + ext)`. -/
def outPath (nameNoExt ext : String) : String :=
  pathJoin OUTPUT_DIR (nameNoExt ++ "." ++ ext)

/-- Model of the format fan-out loop of `processImage`: build the
`outputs` array and the unsupported-format warnings, in request order. -/
def buildOutputs (quality : Rat) (formats : List String) (nameNoExt : String) :
    List OutputSpec × List String :=
  match formats with
  | [] => ([], [])
  | fmt :: rest =>
    let r := buildOutputs quality rest nameNoExt
    if fmt = "webp" then
      ({ fmt := fmt, outFile := outPath nameNoExt "webp",
         fn := EncodeOp.webp quality 4 } :: r.1, r.2)
    else if fmt = "jpeg" ∨ fmt = "jpg" then
      ({ fmt := "jpeg", outFile := outPath nameNoExt "jpg",
         fn := EncodeOp.jpeg quality true } :: r.1, r.2)
    else if fmt = "png" then
      ({ fmt := fmt, outFile := outPath nameNoExt "png",
         fn := EncodeOp.png quality } :: r.1, r.2)
    else
      (r.1, warnLine fmt :: r.2)

/-- A format token the fan-out converts; anything else only warns. -/
def isValidFmt (f : String) : Bool :=
  decide (f = "webp" ∨ f = "jpeg" ∨ f = "jpg" ∨ f = "png")

/-- The `fmt` field stored in the OutputSpec (`jpg` is normalized). -/
def normFmt (f : String) : String :=
  if f = "jpg" then "jpeg" else f

inductive Status
  | written
  | skippedExists
  | dryRun
deriving DecidableEq, Repr

/-- One element of the `results` array (`status` strings become the
`Status` enum). -/
structure ConversionResult where
  src : String
  out : String
  fmt : String
  status : Status
deriving DecidableEq, Repr

/-- The file-system state visible to the program: which output paths
exist and, for the model, what encoded content was last written there.
`fs.access` succeeding is membership; `toFile` prepends a binding. -/
abbrev FS := List (String × (Handle × EncodeOp))

def fsHas (fs : FS) (p : String) : Bool :=
  (fs.lookup p).isSome

def fsWrite (fs : FS) (p : String) (c : Handle × EncodeOp) : FS :=
  (p, c) :: fs

def mkResult (basename : String) (o : OutputSpec) (st : Status) : ConversionResult :=
  { src := basename, out := jsBasename o.outFile, fmt := o.fmt, status := st }

/-- Model of one iteration of the results loop of `processImage`: the
existence check runs only when `overwrite` is false; then the dry-run
check; otherwise the clone is encoded and written. -/
def processOutput (opts : Opts) (work : Handle) (basename : String)
    (fs : FS) (o : OutputSpec) : ConversionResult × FS :=
  if !opts.overwrite && fsHas fs o.outFile then
    (mkResult basename o Status.skippedExists, fs)
  else if opts.dryRun then
    (mkResult basename o Status.dryRun, fs)
  else
    (mkResult basename o Status.written, fsWrite fs o.outFile (work, o.fn))

/-- The results loop over the whole `outputs` array, threading the
file-system state. -/
def processOutputs (opts : Opts) (work : Handle) (basename : String) :
    List OutputSpec → FS → List ConversionResult × FS
  | [], fs => ([], fs)
  | o :: os, fs =>
    let step := processOutput opts work basename fs o
    let rest := processOutputs opts work basename os step.2
    (step.1 :: rest.1, rest.2)

/-- What a successful `processImage` call produces: the per-output
results, the unsupported-format warnings, and the updated file system. -/
structure ImageOut where
  results : List ConversionResult
  warnings : List String
  fs : FS
deriving DecidableEq, Repr

/-- The straight-line body of `processImage` after the metadata read
succeeded. -/
def processImageOk (srcPath : String) (opts : Opts) (meta : Meta) (fs : FS) :
    ImageOut :=
  let basename := jsBasename srcPath
  let nameNoExt := basenameNoExt srcPath
  let work := mkWork srcPath meta opts
  let bo := buildOutputs opts.quality opts.formats nameNoExt
  let po := processOutputs opts work basename bo.1 fs
  { results := po.1, warnings := bo.2, fs := po.2 }

/-- Model of `processImage(srcPath, opts)`.  The codec's answer to
open/decode/metadata is an input: an error there propagates out of the
function before any flag is consulted or any result is produced. -/
def processImage (srcPath : String) (opts : Opts)
    (metaResult : Except String Meta) (fs : FS) : Except String ImageOut :=
  match metaResult with
  | Except.error e => Except.error e
  | Except.ok meta => Except.ok (processImageOk srcPath opts meta fs)

/-! ## Run Orchestrator (`main`) -/

/-- One discovered source file together with the codec's verdict on
opening it (the only fallible step of the model). -/
structure FileInput where
  path : String
  meta : Except String Meta

/-- The stderr line of the per-file catch in `main`. -/
def errorLine (basename msg : String) : String :=
  "Error processing " ++ basename ++ ": " ++ msg

structure RunOut where
  results : List ConversionResult
  logs : List String
  fs : FS

/-- Model of the per-file loop of `main`: each file is processed inside a
try/catch; an error is logged with the file's basename and the loop
continues with the next file and the unchanged file system. -/
def runFilesE (opts : Opts) : List FileInput → FS → RunOut
  | [], fs => { results := [], logs := [], fs := fs }
  | f :: rest, fs =>
    match processImage f.path opts f.meta fs with
    | Except.error e =>
      let r := runFilesE opts rest fs
      { results := r.results,
        logs := errorLine (jsBasename f.path) e :: r.logs, fs := r.fs }
    | Except.ok out =>
      let r := runFilesE opts rest out.fs
      { results := out.results ++ r.results, logs := r.logs, fs := r.fs }

/-- Outcome of one `processImage` call seen from `main`'s try/catch: the
call either resolves with the results array, or throws.  A throw carries
the file-system state at the moment of the throw, because writes already
performed by earlier iterations of the results loop stay on disk — the
source rolls nothing back, it only discards the (never returned) partial
`results` array of that file. -/
inductive ImageOutcomeF
  | ok (results : List ConversionResult) (fs : FS)
  | fail (msg : String) (fs : FS)

/-- One discovered source file together with the codec's possible
failures, one oracle per fallible codec step of `processImage`:
`meta` is the open/decode/metadata outcome, `resizeErr` an error thrown
by `resize()` (consulted only when a resize is actually requested), and
`writeErr` gives, per output path, the error with which the encode
(`fn(work.clone())` option validation) or `toFile` write fails, if any. -/
structure FileInputF where
  path : String
  meta : Except String Meta
  resizeErr : Option String
  writeErr : String → Option String

/-- The all-successful write oracle. -/
def noWriteErr : String → Option String := fun _ => none

/-- A `FileInput` of the failure-free model, viewed as a `FileInputF`
whose resize and encode/write steps never fail. -/
def liftFileInput (f : FileInput) : FileInputF :=
  { path := f.path, meta := f.meta, resizeErr := none, writeErr := noWriteErr }

/-- Fallible results loop of `processImage`: same skip/dry/write policy
as `processOutputs`, except that the encode+write step of one output may
throw, which aborts the loop.  The results accumulated so far are
discarded (the exception propagates before `processImage` returns them)
while the file-system state at the throw is kept. -/
def processOutputsF (opts : Opts) (work : Handle) (basename : String)
    (writeErr : String → Option String) :
    List OutputSpec → FS → ImageOutcomeF
  | [], fs => ImageOutcomeF.ok [] fs
  | o :: os, fs =>
    if !opts.overwrite && fsHas fs o.outFile then
      match processOutputsF opts work basename writeErr os fs with
      | ImageOutcomeF.ok rs fs2 =>
          ImageOutcomeF.ok (mkResult basename o Status.skippedExists :: rs) fs2
      | ImageOutcomeF.fail m fs2 => ImageOutcomeF.fail m fs2
    else if opts.dryRun then
      match processOutputsF opts work basename writeErr os fs with
      | ImageOutcomeF.ok rs fs2 =>
          ImageOutcomeF.ok (mkResult basename o Status.dryRun :: rs) fs2
      | ImageOutcomeF.fail m fs2 => ImageOutcomeF.fail m fs2
    else
      match writeErr o.outFile with
      | some m => ImageOutcomeF.fail m fs
      | none =>
        match processOutputsF opts work basename writeErr os
            (fsWrite fs o.outFile (work, o.fn)) with
        | ImageOutcomeF.ok rs fs2 =>
            ImageOutcomeF.ok (mkResult basename o Status.written :: rs) fs2
        | ImageOutcomeF.fail m fs2 => ImageOutcomeF.fail m fs2

/-- Model of `processImage` with every fallible codec step of the source
represented: the metadata await, the `resize()` call (only reached when a
resize is requested), and the per-output encode/write step. -/
def processImageF (opts : Opts) (f : FileInputF) (fs : FS) : ImageOutcomeF :=
  match f.meta with
  | Except.error e => ImageOutcomeF.fail e fs
  | Except.ok meta =>
    match (if shouldResize meta opts.maxWidth then f.resizeErr else none) with
    | some m => ImageOutcomeF.fail m fs
    | none =>
      processOutputsF opts (mkWork f.path meta opts) (jsBasename f.path)
        f.writeErr
        (buildOutputs opts.quality opts.formats (basenameNoExt f.path)).1 fs

/-- Model of the per-file loop of `main` over the fallible converter: a
throw anywhere inside `processImage` is caught at the file boundary,
logged with the file's basename and message, and the loop continues with
the next file from the file system the failing file left behind. -/
def runFilesF (opts : Opts) : List FileInputF → FS → RunOut
  | [], fs => { results := [], logs := [], fs := fs }
  | f :: rest, fs =>
    match processImageF opts f fs with
    | ImageOutcomeF.fail m fs1 =>
      let r := runFilesF opts rest fs1
      { results := r.results,
        logs := errorLine (jsBasename f.path) m :: r.logs, fs := r.fs }
    | ImageOutcomeF.ok results fs1 =>
      let r := runFilesF opts rest fs1
      { results := results ++ r.results, logs := r.logs, fs := r.fs }

structure MainOut where
  exit : Nat
  results : List ConversionResult
  logs : List String
  fs : FS

/-- Model of `main`: missing source directory exits 1 before any work; an
empty discovery exits 0 with no results; otherwise the per-file loop runs
and the process exits 0. -/
def mainModel (imagesDirHere : Bool) (files : List FileInput)
    (argv : List String) (fs : FS) : MainOut :=
  let opts := parseArgs argv
  if imagesDirHere = false then
    { exit := 1, results := [],
      logs := ["Missing images directory: " ++ IMAGES_DIR], fs := fs }
  else if files.length = 0 then
    { exit := 0, results := [], logs := [], fs := fs }
  else
    let r := runFilesE opts files fs
    { exit := 0, results := r.results, logs := r.logs, fs := r.fs }

/-- Model of `main` over the fallible converter: identical control flow to
`mainModel`, with per-file throws caught inside the loop, so the exit
status stays 0 whenever the images directory exists. -/
def mainModelF (imagesDirHere : Bool) (files : List FileInputF)
    (argv : List String) (fs : FS) : MainOut :=
  let opts := parseArgs argv
  if imagesDirHere = false then
    { exit := 1, results := [],
      logs := ["Missing images directory: " ++ IMAGES_DIR], fs := fs }
  else if files.length = 0 then
    { exit := 0, results := [], logs := [], fs := fs }
  else
    let r := runFilesF opts files fs
    { exit := 0, results := r.results, logs := r.logs, fs := r.fs }

/-! ## Concrete data used by the witness theorems -/

def sampleMeta : Meta := { width := some 100 }

def sampleWideMeta : Meta := { width := some 2000 }

def sampleFileOk : FileInput :=
  { path := "/app/images/x.png", meta := Except.ok sampleMeta }

def sampleFileBad : FileInput :=
  { path := "/app/images/bad.jpg", meta := Except.error "bad image" }

def sampleHandle : Handle :=
  { src := "/app/images/a.png", rotated := true, resized := none }

def sampleSpecA : OutputSpec :=
  { fmt := "jpeg", outFile := outPath "a" "jpg", fn := EncodeOp.jpeg 80 true }

def sampleSpecB : OutputSpec :=
  { fmt := "jpeg", outFile := outPath "a" "jpg", fn := EncodeOp.jpeg 75 true }

def sampleFileFOk : FileInputF := liftFileInput sampleFileOk

/-- Write oracle that fails exactly on the jpeg output of base name y. -/
def sampleWriteErr : String → Option String :=
  fun p => if p = outPath "y" "jpg" then some "disk full" else none

/-- A file that decodes fine, writes its webp output, then fails while
writing its jpeg output — a mid-fan-out encode/write failure. -/
def sampleFileFMid : FileInputF :=
  { path := "/app/images/y.png", meta := Except.ok sampleMeta,
    resizeErr := none, writeErr := sampleWriteErr }

def sampleHandleY : Handle :=
  { src := "/app/images/y.png", rotated := true, resized := none }

/-- The file system `sampleFileFMid` leaves behind when it throws: its
webp output is already on disk. -/
def sampleFsMid : FS :=
  [(outPath "y" "webp", (sampleHandleY, EncodeOp.webp 80 4))]

/-! ## Helper lemmas on the file-system state -/

theorem lookup_fsWrite_self (fs : FS) (p : String) (c : Handle × EncodeOp) :
    (fsWrite fs p c).lookup p = some c := by
  simp [fsWrite, List.lookup]

theorem lookup_fsWrite_ne (fs : FS) (p q : String) (c : Handle × EncodeOp)
    (h : (p == q) = false) :
    (fsWrite fs q c).lookup p = fs.lookup p := by
  simp [fsWrite, List.lookup, h]

theorem fsHas_fsWrite (fs : FS) (p q : String) (c : Handle × EncodeOp) :
    fsHas (fsWrite fs q c) p = ((p == q) || fsHas fs p) := by
  cases h : p == q
  · simp [fsHas, lookup_fsWrite_ne fs p q c h]
  · have hpq : p = q := by simpa using h
    subst hpq
    simp [fsHas, lookup_fsWrite_self]

/-! ## Helper lemmas on the per-output loop -/

theorem processOutput_spec (opts : Opts) (work : Handle) (basename : String)
    (fs : FS) (o : OutputSpec) :
    processOutput opts work basename fs o =
      (if opts.overwrite = false ∧ fsHas fs o.outFile = true then
         (mkResult basename o Status.skippedExists, fs)
       else if opts.dryRun = true then
         (mkResult basename o Status.dryRun, fs)
       else
         (mkResult basename o Status.written, fsWrite fs o.outFile (work, o.fn))) := by
  unfold processOutput
  cases hov : opts.overwrite <;> cases hhas : fsHas fs o.outFile <;>
    cases hdry : opts.dryRun <;> simp [hov, hhas, hdry]

theorem fsHas_processOutput (opts : Opts) (work : Handle) (basename : String)
    (fs : FS) (o : OutputSpec) (p : String) (h : fsHas fs p = true) :
    fsHas (processOutput opts work basename fs o).2 p = true := by
  rw [processOutput_spec]
  by_cases h1 : opts.overwrite = false ∧ fsHas fs o.outFile = true
  · simp [h1, h]
  · by_cases h2 : opts.dryRun = true
    · simp [h1, h2, h]
    · simp [h1, h2, fsHas_fsWrite, h]

theorem lookup_processOutput_preserved (opts : Opts) (work : Handle)
    (basename : String) (fs : FS) (o : OutputSpec) (p : String)
    (hov : opts.overwrite = false) (h : fsHas fs p = true) :
    ((processOutput opts work basename fs o).2).lookup p = fs.lookup p := by
  rw [processOutput_spec]
  by_cases h1 : opts.overwrite = false ∧ fsHas fs o.outFile = true
  · simp [h1]
  · by_cases h2 : opts.dryRun = true
    · simp [h1, h2]
    · have hno : fsHas fs o.outFile = false := by
        cases hh : fsHas fs o.outFile
        · rfl
        · exact absurd ⟨hov, hh⟩ h1
      have hne : (p == o.outFile) = false := by
        cases hpq : p == o.outFile
        · rfl
        · have hpe : p = o.outFile := by simpa using hpq
          rw [hpe, hno] at h
          cases h
      simp [h1, h2, lookup_fsWrite_ne _ _ _ _ hne]

theorem processOutputs_cons (opts : Opts) (work : Handle) (basename : String)
    (o : OutputSpec) (os : List OutputSpec) (fs : FS) :
    processOutputs opts work basename (o :: os) fs =
      ((processOutput opts work basename fs o).1 ::
         (processOutputs opts work basename os (processOutput opts work basename fs o).2).1,
       (processOutputs opts work basename os (processOutput opts work basename fs o).2).2) :=
  rfl

theorem processOutputs_length (opts : Opts) (work : Handle) (basename : String) :
    ∀ (os : List OutputSpec) (fs : FS),
      (processOutputs opts work basename os fs).1.length = os.length := by
  intro os
  induction os with
  | nil => intro fs; rfl
  | cons o os ih =>
    intro fs
    rw [processOutputs_cons]
    simp [ih]

theorem fsHas_processOutputs (opts : Opts) (work : Handle) (basename : String) :
    ∀ (os : List OutputSpec) (fs : FS) (p : String), fsHas fs p = true →
      fsHas (processOutputs opts work basename os fs).2 p = true := by
  intro os
  induction os with
  | nil => intro fs p h; exact h
  | cons o os ih =>
    intro fs p h
    rw [processOutputs_cons]
    exact ih _ _ (fsHas_processOutput opts work basename fs o p h)

theorem lookup_processOutputs_preserved (opts : Opts) (work : Handle)
    (basename : String) (hov : opts.overwrite = false) :
    ∀ (os : List OutputSpec) (fs : FS) (p : String), fsHas fs p = true →
      ((processOutputs opts work basename os fs).2).lookup p = fs.lookup p := by
  intro os
  induction os with
  | nil => intro fs p _; rfl
  | cons o os ih =>
    intro fs p h
    rw [processOutputs_cons]
    rw [ih _ _ (fsHas_processOutput opts work basename fs o p h)]
    exact lookup_processOutput_preserved opts work basename fs o p hov h

theorem processOutputs_append (opts : Opts) (work : Handle) (basename : String) :
    ∀ (xs ys : List OutputSpec) (fs : FS),
      processOutputs opts work basename (xs ++ ys) fs =
        ((processOutputs opts work basename xs fs).1 ++
           (processOutputs opts work basename ys
             (processOutputs opts work basename xs fs).2).1,
         (processOutputs opts work basename ys
           (processOutputs opts work basename xs fs).2).2) := by
  intro xs
  induction xs with
  | nil => intro ys fs; rfl
  | cons x xs ih =>
    intro ys fs
    rw [List.cons_append, processOutputs_cons, processOutputs_cons, ih]
    simp

theorem processOutput_fmt (opts : Opts) (work : Handle) (basename : String)
    (fs : FS) (o : OutputSpec) :
    (processOutput opts work basename fs o).1.fmt = o.fmt := by
  rw [processOutput_spec]
  by_cases h1 : opts.overwrite = false ∧ fsHas fs o.outFile = true
  · simp [h1, mkResult]
  · by_cases h2 : opts.dryRun = true
    · simp [h1, h2, mkResult]
    · simp [h1, h2, mkResult]

theorem processOutputs_results_fmts (opts : Opts) (work : Handle)
    (basename : String) :
    ∀ (os : List OutputSpec) (fs : FS),
      (processOutputs opts work basename os fs).1.map ConversionResult.fmt =
        os.map OutputSpec.fmt := by
  intro os
  induction os with
  | nil => intro fs; rfl
  | cons o os ih =>
    intro fs
    rw [processOutputs_cons]
    simp [ih, processOutput_fmt]

theorem processOutputs_second_skips (opts : Opts) (work : Handle)
    (basename : String) (hov : opts.overwrite = false) :
    ∀ (os : List OutputSpec) (fs gs : FS),
      (∀ p, fsHas (processOutputs opts work basename os fs).2 p = true →
        fsHas gs p = true) →
      List.Forall₂
        (fun r1 r2 => r1.status = Status.written → r2.status = Status.skippedExists)
        (processOutputs opts work basename os fs).1
        (processOutputs opts work basename os gs).1 := by
  intro os
  induction os with
  | nil => intro fs gs _; exact List.Forall₂.nil
  | cons o os ih =>
    intro fs gs hsub
    rw [processOutputs_cons, processOutputs_cons]
    refine List.Forall₂.cons ?_ ?_
    · intro hw
      rw [processOutput_spec] at hw
      by_cases h1 : opts.overwrite = false ∧ fsHas fs o.outFile = true
      · rw [if_pos h1] at hw
        simp [mkResult] at hw
      · by_cases h2 : opts.dryRun = true
        · rw [if_neg h1, if_pos h2] at hw
          simp [mkResult] at hw
        · have hstep : fsHas (processOutput opts work basename fs o).2 o.outFile = true := by
            rw [processOutput_spec, if_neg h1, if_neg h2]
            simp [fsHas_fsWrite]
          have hfin :
              fsHas (processOutputs opts work basename (o :: os) fs).2 o.outFile = true := by
            rw [processOutputs_cons]
            exact fsHas_processOutputs opts work basename os _ _ hstep
          have hgs : fsHas gs o.outFile = true := hsub _ hfin
          rw [processOutput_spec, if_pos ⟨hov, hgs⟩]
          rfl
    · refine ih _ _ ?_
      intro p hp
      have hfs : fsHas (processOutputs opts work basename (o :: os) fs).2 p = true := by
        rw [processOutputs_cons]
        exact hp
      exact fsHas_processOutput opts work basename gs o p (hsub p hfs)

/-! ## Helper lemmas on the per-image converter and orchestrator loop -/

theorem processImageOk_results (srcPath : String) (opts : Opts) (meta : Meta)
    (fs : FS) :
    (processImageOk srcPath opts meta fs).results =
      (processOutputs opts (mkWork srcPath meta opts) (jsBasename srcPath)
        (buildOutputs opts.quality opts.formats (basenameNoExt srcPath)).1 fs).1 :=
  rfl

theorem processImageOk_warnings (srcPath : String) (opts : Opts) (meta : Meta)
    (fs : FS) :
    (processImageOk srcPath opts meta fs).warnings =
      (buildOutputs opts.quality opts.formats (basenameNoExt srcPath)).2 :=
  rfl

theorem processImageOk_fs (srcPath : String) (opts : Opts) (meta : Meta)
    (fs : FS) :
    (processImageOk srcPath opts meta fs).fs =
      (processOutputs opts (mkWork srcPath meta opts) (jsBasename srcPath)
        (buildOutputs opts.quality opts.formats (basenameNoExt srcPath)).1 fs).2 :=
  rfl

theorem fsHas_processImageOk (srcPath : String) (opts : Opts) (meta : Meta)
    (fs : FS) (p : String) (h : fsHas fs p = true) :
    fsHas (processImageOk srcPath opts meta fs).fs p = true := by
  rw [processImageOk_fs]
  exact fsHas_processOutputs _ _ _ _ _ _ h

theorem runFilesE_cons_error (opts : Opts) (path e : String)
    (rest : List FileInput) (fs : FS) :
    runFilesE opts ({ path := path, meta := Except.error e } :: rest) fs =
      { results := (runFilesE opts rest fs).results,
        logs := errorLine (jsBasename path) e :: (runFilesE opts rest fs).logs,
        fs := (runFilesE opts rest fs).fs } :=
  rfl

theorem runFilesE_cons_ok (opts : Opts) (path : String) (meta : Meta)
    (rest : List FileInput) (fs : FS) :
    runFilesE opts ({ path := path, meta := Except.ok meta } :: rest) fs =
      { results := (processImageOk path opts meta fs).results ++
          (runFilesE opts rest (processImageOk path opts meta fs).fs).results,
        logs := (runFilesE opts rest (processImageOk path opts meta fs).fs).logs,
        fs := (runFilesE opts rest (processImageOk path opts meta fs).fs).fs } :=
  rfl

theorem fsHas_runFilesE (opts : Opts) :
    ∀ (files : List FileInput) (fs : FS) (p : String), fsHas fs p = true →
      fsHas (runFilesE opts files fs).fs p = true := by
  intro files
  induction files with
  | nil => intro fs p h; exact h
  | cons f rest ih =>
    intro fs p h
    rcases f with ⟨path, meta⟩
    cases meta with
    | error e =>
      rw [runFilesE_cons_error]
      exact ih fs p h
    | ok m =>
      rw [runFilesE_cons_ok]
      exact ih _ p (fsHas_processImageOk path opts m fs p h)

theorem runFilesE_second_skips (opts : Opts) (hov : opts.overwrite = false) :
    ∀ (files : List FileInput) (fs gs : FS),
      (∀ p, fsHas (runFilesE opts files fs).fs p = true → fsHas gs p = true) →
      List.Forall₂
        (fun r1 r2 => r1.status = Status.written → r2.status = Status.skippedExists)
        (runFilesE opts files fs).results (runFilesE opts files gs).results := by
  intro files
  induction files with
  | nil => intro fs gs _; exact List.Forall₂.nil
  | cons f rest ih =>
    intro fs gs hsub
    rcases f with ⟨path, meta⟩
    cases meta with
    | error e =>
      rw [runFilesE_cons_error] at hsub ⊢
      rw [runFilesE_cons_error]
      exact ih fs gs hsub
    | ok m =>
      rw [runFilesE_cons_ok] at hsub ⊢
      rw [runFilesE_cons_ok]
      refine List.rel_append ?_ ?_
      · rw [processImageOk_results, processImageOk_results]
        refine processOutputs_second_skips opts (mkWork path m opts) (jsBasename path)
          hov (buildOutputs opts.quality opts.formats (basenameNoExt path)).1 fs gs ?_
        intro p hp
        refine hsub p (fsHas_runFilesE opts rest _ p ?_)
        rw [processImageOk_fs]
        exact hp
      · refine ih _ _ ?_
        intro p hp
        exact fsHas_processImageOk path opts m gs p (hsub p hp)

theorem runFilesE_append (opts : Opts) :
    ∀ (xs ys : List FileInput) (fs : FS),
      runFilesE opts (xs ++ ys) fs =
        { results := (runFilesE opts xs fs).results ++
            (runFilesE opts ys (runFilesE opts xs fs).fs).results,
          logs := (runFilesE opts xs fs).logs ++
            (runFilesE opts ys (runFilesE opts xs fs).fs).logs,
          fs := (runFilesE opts ys (runFilesE opts xs fs).fs).fs } := by
  intro xs
  induction xs with
  | nil => intro ys fs; rfl
  | cons x xs ih =>
    intro ys fs
    rcases x with ⟨path, meta⟩
    cases meta with
    | error e =>
      rw [List.cons_append, runFilesE_cons_error, runFilesE_cons_error, ih]
      simp
    | ok m =>
      rw [List.cons_append, runFilesE_cons_ok, runFilesE_cons_ok, ih]
      simp

/-! ## Helper lemmas on the format fan-out -/

theorem buildOutputs_results_fmts (q : Rat) (n : String) :
    ∀ formats : List String,
      ((buildOutputs q formats n).1.map OutputSpec.fmt) =
        (formats.filter isValidFmt).map normFmt := by
  intro formats
  induction formats with
  | nil => rfl
  | cons fmt rest ih =>
    by_cases h1 : fmt = "webp"
    · subst h1
      simp [buildOutputs, isValidFmt, normFmt, ih]
    · by_cases h2 : fmt = "jpeg" ∨ fmt = "jpg"
      · rcases h2 with h2 | h2 <;> subst h2 <;>
          simp [buildOutputs, isValidFmt, normFmt, ih, h1]
      · by_cases h3 : fmt = "png"
        · subst h3
          simp [buildOutputs, isValidFmt, normFmt, ih]
        · have h2a : ¬fmt = "jpeg" := fun h => h2 (Or.inl h)
          have h2b : ¬fmt = "jpg" := fun h => h2 (Or.inr h)
          simp [buildOutputs, isValidFmt, ih, h1, h2, h2a, h2b, h3]

theorem buildOutputs_warnings (q : Rat) (n : String) :
    ∀ formats : List String,
      (buildOutputs q formats n).2 =
        (formats.filter fun f => !isValidFmt f).map warnLine := by
  intro formats
  induction formats with
  | nil => rfl
  | cons fmt rest ih =>
    by_cases h1 : fmt = "webp"
    · subst h1
      simp [buildOutputs, isValidFmt, ih]
    · by_cases h2 : fmt = "jpeg" ∨ fmt = "jpg"
      · rcases h2 with h2 | h2 <;> subst h2 <;>
          simp [buildOutputs, isValidFmt, ih, h1]
      · by_cases h3 : fmt = "png"
        · subst h3
          simp [buildOutputs, isValidFmt, ih]
        · have h2a : ¬fmt = "jpeg" := fun h => h2 (Or.inl h)
          have h2b : ¬fmt = "jpg" := fun h => h2 (Or.inr h)
          simp [buildOutputs, isValidFmt, ih, h1, h2, h2a, h2b, h3]

theorem shouldResize_iff (meta : Meta) (maxWidth : Rat) :
    shouldResize meta maxWidth = true ↔
      ∃ w : Int, meta.width = some w ∧ maxWidth < (w : Rat) := by
  cases hw : meta.width with
  | none => simp [shouldResize, hw]
  | some w => simp [shouldResize, hw]

theorem runFilesE_cons_of_error (opts : Opts) (f : FileInput) (e : String)
    (rest : List FileInput) (fs : FS) (hf : f.meta = Except.error e) :
    runFilesE opts (f :: rest) fs =
      { results := (runFilesE opts rest fs).results,
        logs := errorLine (jsBasename f.path) e :: (runFilesE opts rest fs).logs,
        fs := (runFilesE opts rest fs).fs } := by
  rcases f with ⟨path, meta⟩
  have hm : meta = Except.error e := hf
  subst hm
  rfl

theorem mainModel_exit_zero (files : List FileInput) (argv : List String)
    (fs : FS) :
    (mainModel true files argv fs).exit = 0 := by
  unfold mainModel
  by_cases h : files.length = 0 <;> simp [h]

/-! ## Helper lemmas on the fallible per-file loop -/

theorem mainModelF_exit_zero (files : List FileInputF) (argv : List String)
    (fs : FS) :
    (mainModelF true files argv fs).exit = 0 := by
  unfold mainModelF
  by_cases h : files.length = 0 <;> simp [h]

theorem runFilesF_cons_fail (opts : Opts) (f : FileInputF)
    (rest : List FileInputF) (fs : FS) (m : String) (fs1 : FS)
    (h : processImageF opts f fs = ImageOutcomeF.fail m fs1) :
    runFilesF opts (f :: rest) fs =
      { results := (runFilesF opts rest fs1).results,
        logs := errorLine (jsBasename f.path) m :: (runFilesF opts rest fs1).logs,
        fs := (runFilesF opts rest fs1).fs } := by
  simp only [runFilesF]
  rw [h]

theorem runFilesF_cons_ok (opts : Opts) (f : FileInputF)
    (rest : List FileInputF) (fs : FS) (rs : List ConversionResult) (fs1 : FS)
    (h : processImageF opts f fs = ImageOutcomeF.ok rs fs1) :
    runFilesF opts (f :: rest) fs =
      { results := rs ++ (runFilesF opts rest fs1).results,
        logs := (runFilesF opts rest fs1).logs,
        fs := (runFilesF opts rest fs1).fs } := by
  simp only [runFilesF]
  rw [h]

theorem runFilesF_append (opts : Opts) :
    ∀ (xs ys : List FileInputF) (fs : FS),
      runFilesF opts (xs ++ ys) fs =
        { results := (runFilesF opts xs fs).results ++
            (runFilesF opts ys (runFilesF opts xs fs).fs).results,
          logs := (runFilesF opts xs fs).logs ++
            (runFilesF opts ys (runFilesF opts xs fs).fs).logs,
          fs := (runFilesF opts ys (runFilesF opts xs fs).fs).fs } := by
  intro xs
  induction xs with
  | nil => intro ys fs; rfl
  | cons x xs ih =>
    intro ys fs
    cases h : processImageF opts x fs with
    | fail m fs1 =>
      rw [List.cons_append, runFilesF_cons_fail opts x (xs ++ ys) fs m fs1 h,
        runFilesF_cons_fail opts x xs fs m fs1 h, ih]
      simp
    | ok rs fs1 =>
      rw [List.cons_append, runFilesF_cons_ok opts x (xs ++ ys) fs rs fs1 h,
        runFilesF_cons_ok opts x xs fs rs fs1 h, ih]
      simp

/-! ## Agreement of the fallible loop with the failure-free loop -/

theorem processOutputsF_no_write_errors (opts : Opts) (work : Handle)
    (basename : String) :
    ∀ (os : List OutputSpec) (fs : FS),
      processOutputsF opts work basename noWriteErr os fs =
        ImageOutcomeF.ok (processOutputs opts work basename os fs).1
          (processOutputs opts work basename os fs).2 := by
  intro os
  induction os with
  | nil => intro fs; rfl
  | cons o os ih =>
    intro fs
    rw [processOutputs_cons]
    by_cases h1 : (!opts.overwrite && fsHas fs o.outFile) = true
    · simp [processOutputsF, processOutput, h1, ih]
    · by_cases h2 : opts.dryRun = true
      · simp [processOutputsF, processOutput, h1, h2, ih]
      · simp [processOutputsF, processOutput, noWriteErr, h1, h2, ih]

theorem processImageF_lift (opts : Opts) (f : FileInput) (fs : FS) :
    processImageF opts (liftFileInput f) fs =
      (match processImage f.path opts f.meta fs with
       | Except.error e => ImageOutcomeF.fail e fs
       | Except.ok out => ImageOutcomeF.ok out.results out.fs) := by
  rcases f with ⟨path, meta⟩
  cases meta with
  | error e => rfl
  | ok mt =>
    show processImageF opts (liftFileInput ⟨path, Except.ok mt⟩) fs = _
    unfold processImageF liftFileInput
    simp only [ite_self]
    rw [processOutputsF_no_write_errors]
    rfl

theorem runFilesF_lift (opts : Opts) :
    ∀ (files : List FileInput) (fs : FS),
      runFilesF opts (files.map liftFileInput) fs = runFilesE opts files fs := by
  intro files
  induction files with
  | nil => intro fs; rfl
  | cons f rest ih =>
    intro fs
    rcases f with ⟨path, meta⟩
    cases meta with
    | error e =>
      rw [List.map_cons,
        runFilesF_cons_fail opts (liftFileInput ⟨path, Except.error e⟩)
          (rest.map liftFileInput) fs e fs
          (processImageF_lift opts ⟨path, Except.error e⟩ fs),
        runFilesE_cons_error, ih]
      rfl
    | ok mt =>
      rw [List.map_cons,
        runFilesF_cons_ok opts (liftFileInput ⟨path, Except.ok mt⟩)
          (rest.map liftFileInput) fs (processImageOk path opts mt fs).results
          (processImageOk path opts mt fs).fs
          (processImageF_lift opts ⟨path, Except.ok mt⟩ fs),
        runFilesE_cons_ok, ih]

/-! ## Claim theorems -/

/-- C1: for every OutputSpec processed by the per-image converter, the
result status is decided with this precedence: `skipped-exists` exactly
when overwrite is false and the output path already exists, and then the
file system is untouched (no encode, no write); otherwise `dry-run` when
dryRun is set, again with the file system untouched; otherwise the working
handle's clone is encoded and written to the output path and the status is
`written`.  In particular skipped-exists takes precedence over dry-run
only when overwrite is false and the file already exists. -/
theorem c1_status_precedence (opts : Opts) (work : Handle) (basename : String)
    (fs : FS) (o : OutputSpec) :
    processOutput opts work basename fs o =
      (if opts.overwrite = false ∧ fsHas fs o.outFile = true then
         (mkResult basename o Status.skippedExists, fs)
       else if opts.dryRun = true then
         (mkResult basename o Status.dryRun, fs)
       else
         (mkResult basename o Status.written, fsWrite fs o.outFile (work, o.fn))) :=
  processOutput_spec opts work basename fs o

/-- C2: running the per-file loop twice with the same configuration and
file list and `overwrite = false`, the second run starting from the file
system the first run produced, turns every `written` result of the first
run into `skipped-exists` at the same position of the second run. -/
theorem c2_second_run_skips (opts : Opts) (files : List FileInput) (fs : FS)
    (hov : opts.overwrite = false) :
    List.Forall₂
      (fun r1 r2 => r1.status = Status.written → r2.status = Status.skippedExists)
      (runFilesE opts files fs).results
      (runFilesE opts files (runFilesE opts files fs).fs).results :=
  runFilesE_second_skips opts hov files fs (runFilesE opts files fs).fs
    fun _ h => h

/-- Witness for C2 at a concrete one-file run whose first pass writes both
outputs. -/
theorem c2_second_run_skips_witness :
    List.Forall₂
      (fun r1 r2 => r1.status = Status.written → r2.status = Status.skippedExists)
      (runFilesE defaultOpts [sampleFileOk] []).results
      (runFilesE defaultOpts [sampleFileOk]
        ((runFilesE defaultOpts [sampleFileOk] []).fs)).results :=
  c2_second_run_skips defaultOpts [sampleFileOk] [] rfl

/-- C3: any error raised while opening, decoding, resizing, encoding or
writing one source file — mid-fan-out included — aborts that file only:
it contributes zero results (even for outputs it had already written, as
the source discards the partial array), the orchestrator logs one stderr
line with the file's basename and the message in place, the remaining
files are processed normally by the same loop from the file system the
failing file left behind, and the process exit status is 0.  When the
failure wrote nothing (e.g. a decode error), the results and final file
system moreover equal those of the run without the failing file. -/
theorem c3_per_file_error_isolation (opts : Opts) (fs : FS)
    (pre post : List FileInputF) (f : FileInputF) (argv : List String)
    (m : String) (fsMid : FS)
    (hf : processImageF opts f (runFilesF opts pre fs).fs =
      ImageOutcomeF.fail m fsMid) :
    runFilesF opts (pre ++ f :: post) fs =
      { results := (runFilesF opts pre fs).results ++
          (runFilesF opts post fsMid).results,
        logs := (runFilesF opts pre fs).logs ++
          errorLine (jsBasename f.path) m :: (runFilesF opts post fsMid).logs,
        fs := (runFilesF opts post fsMid).fs }
  ∧ (mainModelF true (pre ++ f :: post) argv fs).exit = 0
  ∧ (fsMid = (runFilesF opts pre fs).fs →
       (runFilesF opts (pre ++ f :: post) fs).results =
           (runFilesF opts (pre ++ post) fs).results
       ∧ (runFilesF opts (pre ++ f :: post) fs).fs =
           (runFilesF opts (pre ++ post) fs).fs) := by
  have hmain : runFilesF opts (pre ++ f :: post) fs =
      { results := (runFilesF opts pre fs).results ++
          (runFilesF opts post fsMid).results,
        logs := (runFilesF opts pre fs).logs ++
          errorLine (jsBasename f.path) m :: (runFilesF opts post fsMid).logs,
        fs := (runFilesF opts post fsMid).fs } := by
    rw [runFilesF_append opts pre (f :: post) fs,
      runFilesF_cons_fail opts f post (runFilesF opts pre fs).fs m fsMid hf]
  refine ⟨hmain, mainModelF_exit_zero _ _ _, ?_⟩
  intro hmid
  subst hmid
  rw [hmain, runFilesF_append opts pre post fs]
  exact ⟨rfl, rfl⟩

/-- Witness for C3 at a mid-fan-out failure: `sampleFileFMid` writes its
webp output and then throws while writing its jpeg output; it contributes
no results, the error is logged, the following good file is processed
from the partially-written file system, and the exit status is 0. -/
theorem c3_per_file_error_isolation_witness :
    runFilesF defaultOpts ([] ++ sampleFileFMid :: [sampleFileFOk]) [] =
      { results := (runFilesF defaultOpts [] []).results ++
          (runFilesF defaultOpts [sampleFileFOk] sampleFsMid).results,
        logs := (runFilesF defaultOpts [] []).logs ++
          errorLine (jsBasename sampleFileFMid.path) "disk full" ::
            (runFilesF defaultOpts [sampleFileFOk] sampleFsMid).logs,
        fs := (runFilesF defaultOpts [sampleFileFOk] sampleFsMid).fs }
  ∧ (mainModelF true ([] ++ sampleFileFMid :: [sampleFileFOk])
      ["node", "index.mjs"] []).exit = 0
  ∧ (sampleFsMid = (runFilesF defaultOpts [] []).fs →
       (runFilesF defaultOpts ([] ++ sampleFileFMid :: [sampleFileFOk]) []).results =
           (runFilesF defaultOpts ([] ++ [sampleFileFOk]) []).results
       ∧ (runFilesF defaultOpts ([] ++ sampleFileFMid :: [sampleFileFOk]) []).fs =
           (runFilesF defaultOpts ([] ++ [sampleFileFOk]) []).fs) :=
  c3_per_file_error_isolation defaultOpts [] [] [sampleFileFOk] sampleFileFMid
    ["node", "index.mjs"] "disk full" sampleFsMid rfl

/-- C4 counterexample: the code's resize condition checks only that the
metadata width is a number exceeding maxWidth, not that it is positive:
with width 0 and maxWidth -1 (reachable via `--max-width=-1`) the code
resizes although 0 is not a positive width, so the claimed iff fails. -/
theorem c4_resize_counterexample :
    shouldResize { width := some 0 } (-1 : Rat) = true
  ∧ ¬(0 < (0 : Int))
  ∧ (parseArgs ["node", "index.mjs", "--max-width=-1"]).maxWidth = -1 := by
  decide

/-- C4 (amended): the per-image converter resizes iff the metadata width is
a known number that exceeds the configured maxWidth (the code does not
separately check positivity; whenever maxWidth is nonnegative such a
width is automatically positive, recovering the claim); when it resizes
it requests width = maxWidth with fit-inside, no-enlargement semantics. -/
theorem c4_resize_decision (srcPath : String) (meta : Meta) (opts : Opts) :
    (shouldResize meta opts.maxWidth = true ↔
       ∃ w : Int, meta.width = some w ∧ opts.maxWidth < (w : Rat))
  ∧ ((mkWork srcPath meta opts).resized =
       if shouldResize meta opts.maxWidth then
         some { width := opts.maxWidth, withoutEnlargement := true, fit := "inside" }
       else none)
  ∧ ((0 ≤ opts.maxWidth ∧ shouldResize meta opts.maxWidth = true) ↔
       (0 ≤ opts.maxWidth ∧
         ∃ w : Int, meta.width = some w ∧ 0 < w ∧ opts.maxWidth < (w : Rat))) := by
  refine ⟨shouldResize_iff meta opts.maxWidth, ?_, ?_⟩
  · by_cases h : shouldResize meta opts.maxWidth <;> simp [mkWork, h]
  · constructor
    · rintro ⟨hmw, hsr⟩
      obtain ⟨w, hw, hlt⟩ := (shouldResize_iff meta opts.maxWidth).mp hsr
      refine ⟨hmw, w, hw, ?_, hlt⟩
      have hq : (0 : Rat) < (w : Rat) := lt_of_le_of_lt hmw hlt
      exact_mod_cast hq
    · rintro ⟨hmw, w, hw, _, hlt⟩
      exact ⟨hmw, (shouldResize_iff meta opts.maxWidth).mpr ⟨w, hw, hlt⟩⟩

/-- C5 counterexample: `--formats=,` has a truthy raw value, so the code
assigns the filtered token list even though it is empty: the resolved
formats list is `[]`, not the default `["webp", "jpeg"]`. -/
theorem c5_formats_counterexample :
    (parseArgs ["node", "index.mjs", "--formats=,"]).formats = []
  ∧ defaultOpts.formats = ["webp", "jpeg"]
  ∧ ([] : List String) ≠ ["webp", "jpeg"] := by
  decide

/-- C5 (amended): the option resolver is total and permissive — every
argument list resolves, with malformed values falling back to defaults —
and formats tokens are trimmed, lower-cased and empty tokens dropped; an
empty (missing) raw value is ignored with defaults retained, but a
non-empty raw value whose tokens are all empty yields an empty formats
list. -/
theorem c5_option_resolution (o : Opts) (v : String) :
    ((applyFormats o v).formats =
       if v.data.isEmpty then o.formats else formatsOf v)
  ∧ (parseArgs ["node", "index.mjs", "--formats= WebP , JPEG "]).formats =
      ["webp", "jpeg"]
  ∧ (parseArgs ["node", "index.mjs", "--formats="]).formats = ["webp", "jpeg"]
  ∧ parseArgs ["node", "index.mjs", "--bogus", "--max-width=abc", "--quality="] =
      defaultOpts := by
  refine ⟨?_, by decide, by decide, by decide⟩
  by_cases h : v.data.isEmpty <;> simp [applyFormats, h]

/-- C6 counterexample: a numeric override is kept whenever it parses to a
nonzero number, so `--quality=200 --max-width=-5` resolves to quality 200
(outside 1–100) and maxWidth -5 (not positive). -/
theorem c6_constraints_counterexample :
    (parseArgs ["node", "index.mjs", "--quality=200", "--max-width=-5"]).quality = 200
  ∧ (parseArgs ["node", "index.mjs", "--quality=200", "--max-width=-5"]).maxWidth = -5
  ∧ ¬((parseArgs ["node", "index.mjs", "--quality=200", "--max-width=-5"]).quality ≤ 100)
  ∧ ¬(0 < (parseArgs ["node", "index.mjs", "--quality=200", "--max-width=-5"]).maxWidth) := by
  decide

/-- C6 (amended): numeric overrides are ignored (current value retained)
exactly when non-numeric or zero, and otherwise taken verbatim; the
defaults do satisfy the data-model constraints, but an override is not
forced into them (no positivity or 1–100 clamping). -/
theorem c6_numeric_overrides (o : Opts) (v : String) :
    (applyMaxWidth o v).maxWidth = orDefault (jsNumber v) o.maxWidth
  ∧ (applyQuality o v).quality = orDefault (jsNumber v) o.quality
  ∧ orDefault none o.maxWidth = o.maxWidth
  ∧ orDefault (some 0) o.maxWidth = o.maxWidth
  ∧ (0 < defaultOpts.maxWidth ∧ 1 ≤ defaultOpts.quality ∧ defaultOpts.quality ≤ 100)
  ∧ (parseArgs ["node", "index.mjs", "--max-width=abc"]).maxWidth = 1600
  ∧ (parseArgs ["node", "index.mjs", "--quality=0"]).quality = 80
  ∧ (parseArgs ["node", "index.mjs", "--quality=95"]).quality = 95 := by
  refine ⟨rfl, rfl, rfl, ?_, by decide, by decide, by decide, by decide⟩
  simp [orDefault]

/-- C7: for every source file that reaches format fan-out, the number of
results equals the number of valid requested tokens (webp, jpeg, jpg,
png), the result formats are the normalized tokens in request order, and
every other token contributes exactly one warning, in order, and no
result. -/
theorem c7_fanout_counts (srcPath : String) (opts : Opts) (meta : Meta)
    (fs : FS) :
    (processImageOk srcPath opts meta fs).results.length =
      (opts.formats.filter isValidFmt).length
  ∧ (processImageOk srcPath opts meta fs).results.map ConversionResult.fmt =
      (opts.formats.filter isValidFmt).map normFmt
  ∧ (processImageOk srcPath opts meta fs).warnings =
      (opts.formats.filter fun f => !isValidFmt f).map warnLine := by
  refine ⟨?_, ?_, ?_⟩
  · rw [processImageOk_results, processOutputs_length]
    have hlen := congrArg List.length
      (buildOutputs_results_fmts opts.quality (basenameNoExt srcPath) opts.formats)
    simpa using hlen
  · rw [processImageOk_results, processOutputs_results_fmts]
    exact buildOutputs_results_fmts _ _ _
  · rw [processImageOk_warnings]
    exact buildOutputs_warnings _ _ _

/-- C8: file discovery returns exactly the direct file entries whose
extension (via path.extname, compared case-insensitively) is in the
supported set, in directory order; directory entries — including the
output subdirectory — are never candidates, and an empty candidate set is
the empty list, not an error. -/
theorem c8_discovery (dir : String) (entries : List Dirent) :
    listImageFiles dir entries =
      ((entries.filter fun e =>
          decide (e.kind = EntryKind.file) && isImageFile e.name).map
        fun e => pathJoin dir e.name)
  ∧ listImageFiles dir [] = []
  ∧ listImageFiles dir [Dirent.mk OUTPUT_SUBDIR EntryKind.dir] = []
  ∧ isImageFile "photo.JPeG" = true
  ∧ isImageFile "notes.txt" = false := by
  refine ⟨?_, rfl, rfl, by decide, by decide⟩
  induction entries with
  | nil => rfl
  | cons e es ih =>
    rcases e with ⟨name, kind⟩
    cases kind with
    | dir => simpa [listImageFiles, List.filterMap_cons] using ih
    | file =>
      cases hv : isImageFile name <;>
        simpa [listImageFiles, List.filterMap_cons, hv] using ih
    | other => simpa [listImageFiles, List.filterMap_cons] using ih

/-- C9: the per-image converter consults the codec (open, decode,
metadata) before any dryRun or overwrite flag: a source that fails to
open raises the error even with dryRun set, yields no dry-run results,
and at the orchestrator contributes zero results and exactly one logged
error line, leaving the file system unchanged. -/
theorem c9_metadata_error_beats_flags (srcPath : String) (opts : Opts)
    (e : String) (fs : FS) :
    processImage srcPath { opts with dryRun := true } (Except.error e) fs =
      Except.error e
  ∧ processImage srcPath opts (Except.error e) fs = Except.error e
  ∧ (runFilesE opts [{ path := srcPath, meta := Except.error e }] fs).results = []
  ∧ (runFilesE opts [{ path := srcPath, meta := Except.error e }] fs).logs =
      [errorLine (jsBasename srcPath) e]
  ∧ (runFilesE opts [{ path := srcPath, meta := Except.error e }] fs).fs = fs :=
  ⟨rfl, rfl, rfl, rfl, rfl⟩

/-- C10: output paths depend only on the stripped base name and the
normalized format (never the source extension); and with overwrite
false, when an OutputSpec is processed after an earlier spec wrote the
same path, the first is `written`, the later one is `skipped-exists`, and
the path still holds the content of the first write. -/
theorem c10_output_paths_and_collisions (opts : Opts) (work : Handle)
    (basename : String) (p1 p2 : String)
    (hov : opts.overwrite = false) (hdry : opts.dryRun = false) :
    (basenameNoExt p1 = basenameNoExt p2 →
       (buildOutputs opts.quality opts.formats (basenameNoExt p1)).1.map
           OutputSpec.outFile =
         (buildOutputs opts.quality opts.formats (basenameNoExt p2)).1.map
           OutputSpec.outFile)
  ∧ (∀ (fs : FS) (x o : OutputSpec) (ys zs : List OutputSpec),
       fsHas fs x.outFile = false → o.outFile = x.outFile →
         (processOutputs opts work basename (x :: (ys ++ o :: zs)) fs).1[0]? =
             some (mkResult basename x Status.written)
       ∧ (processOutputs opts work basename (x :: (ys ++ o :: zs)) fs).1[ys.length + 1]? =
             some (mkResult basename o Status.skippedExists)
       ∧ ((processOutputs opts work basename (x :: (ys ++ o :: zs)) fs).2).lookup
             x.outFile = some (work, x.fn)) := by
  constructor
  · intro h
    rw [h]
  · intro fs x o ys zs hno hoo
    have hcond : ¬(opts.overwrite = false ∧ fsHas fs x.outFile = true) := by
      rintro ⟨-, hh⟩
      rw [hno] at hh
      cases hh
    have hstep : processOutput opts work basename fs x =
        (mkResult basename x Status.written, fsWrite fs x.outFile (work, x.fn)) := by
      rw [processOutput_spec, if_neg hcond, if_neg (by simp [hdry])]
    have hhas1 : fsHas (fsWrite fs x.outFile (work, x.fn)) x.outFile = true := by
      simp [fsHas_fsWrite]
    have hmid : fsHas (processOutputs opts work basename ys
        (fsWrite fs x.outFile (work, x.fn))).2 x.outFile = true :=
      fsHas_processOutputs opts work basename ys _ _ hhas1
    have hskip : processOutput opts work basename
        (processOutputs opts work basename ys
          (fsWrite fs x.outFile (work, x.fn))).2 o =
        (mkResult basename o Status.skippedExists,
         (processOutputs opts work basename ys
           (fsWrite fs x.outFile (work, x.fn))).2) := by
      rw [processOutput_spec, if_pos ⟨hov, by rw [hoo]; exact hmid⟩]
    refine ⟨?_, ?_, ?_⟩
    · rw [processOutputs_cons, hstep]
      simp
    · rw [processOutputs_cons, hstep]
      simp only [List.getElem?_cons_succ]
      rw [processOutputs_append]
      rw [List.getElem?_append_right
        (by rw [processOutputs_length])]
      rw [processOutputs_length]
      simp only [Nat.sub_self]
      rw [processOutputs_cons, hskip]
      simp
    · rw [processOutputs_cons, hstep]
      rw [processOutputs_append]
      rw [processOutputs_cons, hskip]
      have hpres1 := lookup_processOutputs_preserved opts work basename hov zs
        (processOutputs opts work basename ys
          (fsWrite fs x.outFile (work, x.fn))).2 x.outFile hmid
      rw [hpres1]
      have hpres2 := lookup_processOutputs_preserved opts work basename hov ys
        (fsWrite fs x.outFile (work, x.fn)) x.outFile hhas1
      rw [hpres2]
      exact lookup_fsWrite_self fs x.outFile (work, x.fn)

/-- Witness for C10: with the default configuration, two OutputSpecs
targeting the same path (jpeg requested twice for base name a) give a
write followed by a skip. -/
theorem c10_output_paths_and_collisions_witness :
    (processOutputs defaultOpts sampleHandle "a.png"
        (sampleSpecA :: ([] ++ sampleSpecB :: [])) []).1[([] : List OutputSpec).length + 1]? =
      some (mkResult "a.png" sampleSpecB Status.skippedExists) := by
  have h := (c10_output_paths_and_collisions defaultOpts sampleHandle "a.png"
      "/app/images/a.png" "/app/images/a.gif" rfl rfl).2
      [] sampleSpecA sampleSpecB [] [] rfl rfl
  exact h.2.1

end ImageResizer
